import Mathlib

/-!
Verification of the Wallet and Investment Ledger Engine of the backend1 repository.

The definitions below are a shallow embedding of the JavaScript source:
JS numbers are modelled as rationals (and as reals where the source uses
`Math.pow` with a possibly non-integral exponent), dates as integer
millisecond timestamps, thrown exceptions as `Except` errors or as an
`err` field on an outcome record, and Mongoose documents as plain
structures.  A method that throws before assigning to `this` is modelled
by a function that returns `.error` and leaves its input state untouched.

Embedded source files:
- the Wallet model (walletSchema methods `getAvailableBalance`,
  `hasSufficientFunds`, `lockFunds`, `unlockFunds`, `addFunds`,
  `deductFunds`);
- the Transaction model (`markAsCompleted`, `markAsFailed`,
  `markAsCancelled`);
- the investment routes (`createInvestment`, `cancelInvestment`, the
  accrual computation `calculateInvestmentReturns` /
  `calculateCompoundedReturns`);
- the wallet controller (`withdraw`, `getNetworkFee`);
- the payment service (`PaymentService.processCryptoWithdrawal`,
  `getCryptoNetworkFee`).
-/

/-- The currencies declared in the wallet schema (`balances` keys). -/
inductive Currency where
  | USD
  | EUR
  | GBP
  | BTC
  | ETH
  | USDT
  | USDC
deriving DecidableEq, Repr

/-- A per-currency map of rational amounts, one field per schema key.
Both `balances` and `lockedBalances` are modelled with all seven keys;
a key never written holds the schema default 0 (JS reads of a missing
key go through `|| 0`). -/
structure CurrencyMap where
  usd : ℚ
  eur : ℚ
  gbp : ℚ
  btc : ℚ
  eth : ℚ
  usdt : ℚ
  usdc : ℚ
deriving DecidableEq, Repr

/-- Read a currency entry (`map[currency] || 0` in the source). -/
def CurrencyMap.get (m : CurrencyMap) : Currency → ℚ
  | .USD => m.usd
  | .EUR => m.eur
  | .GBP => m.gbp
  | .BTC => m.btc
  | .ETH => m.eth
  | .USDT => m.usdt
  | .USDC => m.usdc

/-- Write a currency entry (`map[currency] = v` in the source). -/
def CurrencyMap.set (m : CurrencyMap) (c : Currency) (v : ℚ) : CurrencyMap :=
  match c with
  | .USD => { m with usd := v }
  | .EUR => { m with eur := v }
  | .GBP => { m with gbp := v }
  | .BTC => { m with btc := v }
  | .ETH => { m with eth := v }
  | .USDT => { m with usdt := v }
  | .USDC => { m with usdc := v }

/-- The constant all-zero map (schema defaults). -/
def CurrencyMap.zero : CurrencyMap := ⟨0, 0, 0, 0, 0, 0, 0⟩

/-- The Wallet model: gross per-currency balances plus locked balances. -/
structure Wallet where
  balances : CurrencyMap
  lockedBalances : CurrencyMap
deriving DecidableEq, Repr

/-- The errors the wallet methods can surface: the thrown exceptions
`Insufficient funds` and `Cannot unlock more funds than are locked`, and the
Mongoose validation error with which `this.save()` rejects a document that
violates the schema's `min: 0` constraint on a balances entry. -/
inductive WalletError where
  | insufficientFunds
  | cannotUnlock
  | validationFailed
deriving DecidableEq, Repr

/-- `walletSchema.methods.getAvailableBalance`:
`Math.max(0, available - locked)` where `available = balances[currency]`
is the gross balance and `locked = lockedBalances[currency]`. -/
def getAvailableBalance (w : Wallet) (c : Currency) : ℚ :=
  max 0 (w.balances.get c - w.lockedBalances.get c)

/-- `walletSchema.methods.hasSufficientFunds`: `getAvailableBalance(currency) >= amount`. -/
def hasSufficientFunds (w : Wallet) (amount : ℚ) (c : Currency) : Prop :=
  amount ≤ getAvailableBalance w c

instance (w : Wallet) (amount : ℚ) (c : Currency) : Decidable (hasSufficientFunds w amount c) :=
  inferInstanceAs (Decidable (amount ≤ getAvailableBalance w c))

/-- `walletSchema.methods.lockFunds`: throws `Insufficient funds` unless
`hasSufficientFunds(amount, currency)`; otherwise `lockedBalances[currency] += amount`. -/
def lockFunds (w : Wallet) (amount : ℚ) (c : Currency) : Except WalletError Wallet :=
  if hasSufficientFunds w amount c then
    .ok { w with lockedBalances := w.lockedBalances.set c (w.lockedBalances.get c + amount) }
  else
    .error .insufficientFunds

/-- `walletSchema.methods.unlockFunds`: throws unless
`lockedBalances[currency] >= amount`; otherwise
`lockedBalances[currency] = Math.max(0, lockedBalances[currency] - amount)`. -/
def unlockFunds (w : Wallet) (amount : ℚ) (c : Currency) : Except WalletError Wallet :=
  if w.lockedBalances.get c < amount then
    .error .cannotUnlock
  else
    .ok { w with lockedBalances := w.lockedBalances.set c (max 0 (w.lockedBalances.get c - amount)) }

/-- `walletSchema.methods.addFunds`: `balances[currency] += amount`, with no
check on `amount` itself; the final `this.save()` runs schema validation,
whose `min: 0` on the balances entries rejects a negative resulting balance,
persisting nothing.  Validation of the one entry this method writes is
modelled; the remaining entries are schema-valid already in every state a
loaded document can be in. -/
def addFunds (w : Wallet) (amount : ℚ) (c : Currency) : Except WalletError Wallet :=
  if w.balances.get c + amount < 0 then
    .error .validationFailed
  else
    .ok { w with balances := w.balances.set c (w.balances.get c + amount) }

/-- `walletSchema.methods.deductFunds`: throws `Insufficient funds` unless
`hasSufficientFunds(amount, currency)`; otherwise
`balances[currency] = Math.max(0, balances[currency] - amount)`. -/
def deductFunds (w : Wallet) (amount : ℚ) (c : Currency) : Except WalletError Wallet :=
  if hasSufficientFunds w amount c then
    .ok { w with balances := w.balances.set c (max 0 (w.balances.get c - amount)) }
  else
    .error .insufficientFunds

/-- One Ledger operation on a fixed (user, currency) pair. -/
inductive Op where
  | lock (amount : ℚ)
  | unlock (amount : ℚ)
  | add (amount : ℚ)
  | deduct (amount : ℚ)
deriving DecidableEq, Repr

/-- The amount an operation is invoked with. -/
def Op.amount : Op → ℚ
  | .lock a => a
  | .unlock a => a
  | .add a => a
  | .deduct a => a

/-- Dispatch one Ledger operation to the corresponding wallet method. -/
def applyOp (c : Currency) (w : Wallet) : Op → Except WalletError Wallet
  | .lock a => lockFunds w a c
  | .unlock a => unlockFunds w a c
  | .add a => addFunds w a c
  | .deduct a => deductFunds w a c

/-- Run a sequence of Ledger operations on one currency, stopping at the
first operation whose precondition fails (the method throws). -/
def runOps (c : Currency) (w : Wallet) : List Op → Except WalletError Wallet
  | [] => .ok w
  | op :: rest =>
    match applyOp c w op with
    | .ok w1 => runOps c w1 rest
    | .error e => .error e

/-- The solvency invariant on one (user, currency) pair:
`available >= locked >= 0`, with `available` the gross balance
`balances[currency]` and `locked` the entry `lockedBalances[currency]`. -/
def ledgerInvariant (c : Currency) (w : Wallet) : Prop :=
  0 ≤ w.lockedBalances.get c ∧ w.lockedBalances.get c ≤ w.balances.get c

instance (c : Currency) (w : Wallet) : Decidable (ledgerInvariant c w) :=
  inferInstanceAs (Decidable (_ ∧ _))

/-- Transaction statuses (`TRANSACTION_STATUS` in config/constants.js). -/
inductive TransactionStatus where
  | pending
  | processing
  | completed
  | failed
  | cancelled
  | rejected
deriving DecidableEq, Repr

/-- The Transaction model, restricted to the fields the claims mention. -/
structure Transaction where
  status : TransactionStatus
  amount : ℚ
  networkFee : ℚ
  platformFee : ℚ
  netAmount : ℚ
  completedAt : Option ℤ
  cancelledAt : Option ℤ
  failureReason : Option String
  txHash : Option String
deriving DecidableEq, Repr

/-- `transactionSchema.methods.markAsCompleted(txHash = null)`: unconditionally sets
`status = completed` and `completedAt = new Date()`, and sets `txHash` when the
argument is truthy; then saves.  There is no check of the current status. -/
def markAsCompleted (now : ℤ) (hash : Option String) (t : Transaction) : Transaction :=
  { t with
    status := .completed
    completedAt := some now
    txHash := match hash with
      | some h => some h
      | none => t.txHash }

/-- `transactionSchema.methods.markAsFailed(reason)`: unconditionally sets
`status = failed` and the failure reason; no check of the current status. -/
def markAsFailed (reason : String) (t : Transaction) : Transaction :=
  { t with
    status := .failed
    failureReason := some reason }

/-- `transactionSchema.methods.markAsCancelled()`: unconditionally sets
`status = cancelled` and `cancelledAt`; no check of the current status. -/
def markAsCancelled (now : ℤ) (t : Transaction) : Transaction :=
  { t with
    status := .cancelled
    cancelledAt := some now }

/-- Investment statuses of the Investment schema under src
(enum active, completed, cancelled, withdrawn). -/
inductive InvestmentStatus where
  | active
  | completed
  | cancelled
  | withdrawn
deriving DecidableEq, Repr

/-- The Investment record, restricted to the fields the claims mention:
status, start date (ms timestamp) and principal amount. -/
structure Investment where
  status : InvestmentStatus
  startMs : ℤ
  amount : ℚ
deriving DecidableEq, Repr

/-- Modelled from the spec: the Investment instance method `cancel(reason)` that
`cancelInvestment` awaits is not defined on the Investment schema under src (only its
caller is); per the spec (section 4.5) cancellation "transitions Investment to
`cancelled`", so the method is modelled as setting the status to cancelled. -/
def Investment.cancel (inv : Investment) : Investment :=
  { inv with status := .cancelled }

/-- Errors surfaced by the investment routes (HTTP 4xx/5xx responses). -/
inductive InvestmentError where
  | insufficientFunds
  | lockPeriodActive
  | notFound
  | internalError
deriving DecidableEq, Repr

/-- Milliseconds per day (`1000 * 60 * 60 * 24`). -/
def msPerDay : ℤ := 86400000

/-- `createInvestment` (investment routes): checks `hasSufficientFunds(amount, 'USD')`,
creates a completed investment Transaction of `amount`, locks `amount` in the wallet
with `lockFunds`, and creates the Investment record with default status active and
`startDate = now`.  The gross balance is never reduced here: only `lockedBalances`
changes. -/
def createInvestment (now : ℤ) (w : Wallet) (amount : ℚ) :
    Except InvestmentError (Wallet × Investment × Transaction) :=
  if ¬ hasSufficientFunds w amount .USD then .error .insufficientFunds
  else
    let tx : Transaction :=
      { status := .completed, amount := amount, networkFee := 0, platformFee := 0,
        netAmount := amount, completedAt := none, cancelledAt := none,
        failureReason := none, txHash := none }
    match lockFunds w amount .USD with
    | .error _ => .error .internalError
    | .ok w1 => .ok (w1, { status := .active, startMs := now, amount := amount }, tx)

/-- The observable result of `cancelInvestment`: the investment record, the wallet,
the refund and fee reported on success, the refund Transaction, and the error
surfaced on failure. -/
structure CancelOutcome where
  investment : Investment
  wallet : Wallet
  refundAmount : Option ℚ
  cancellationFee : Option ℚ
  refundTx : Option Transaction
  err : Option InvestmentError
deriving DecidableEq, Repr

/-- `cancelInvestment` (investment routes): requires an active investment; computes
`daysInvested = Math.floor((now - startDate) / msPerDay)` and rejects with the
lock-period error when `daysInvested < 7`; otherwise computes
`cancellationFee = amount * 0.01` and `refundAmount = amount - cancellationFee`,
cancels the investment, unlocks `amount` with `unlockFunds`, credits `refundAmount`
with `addFunds`, and records a completed refund Transaction. -/
def cancelInvestment (now : ℤ) (inv : Investment) (w : Wallet) : CancelOutcome :=
  if inv.status ≠ .active then ⟨inv, w, none, none, none, some .notFound⟩
  else
    let daysInvested := (now - inv.startMs).fdiv msPerDay
    if daysInvested < 7 then ⟨inv, w, none, none, none, some .lockPeriodActive⟩
    else
      let fee := inv.amount * (1 / 100)
      let refund := inv.amount - fee
      let inv1 := inv.cancel
      match unlockFunds w inv.amount .USD with
      | .error _ => ⟨inv1, w, none, none, none, some .internalError⟩
      | .ok w1 =>
        match addFunds w1 refund .USD with
        | .error _ => ⟨inv1, w1, none, none, none, some .internalError⟩
        | .ok w2 =>
          let tx : Transaction :=
            { status := .completed, amount := refund, networkFee := 0, platformFee := 0,
              netAmount := refund, completedAt := none, cancelledAt := none,
              failureReason := none, txHash := none }
          ⟨inv1, w2, some refund, some fee, some tx, none⟩

/-- `getNetworkFee` (wallet controller): flat table
`{BTC: 0.0005, ETH: 0.005, USDT: 1, USDC: 1}`, and `fees[currency] || 0.001`
yields 0.001 for every other currency, the fiat ones included. -/
def getNetworkFee : Currency → ℚ
  | .BTC => 5 / 10000
  | .ETH => 5 / 1000
  | .USDT => 1
  | .USDC => 1
  | _ => 1 / 1000

/-- Errors surfaced by the `withdraw` controller. -/
inductive WithdrawError where
  | insufficientFunds
  | amountTooSmall
  | internalError
deriving DecidableEq, Repr

/-- `withdraw` (wallet controller), up to the synchronous response: checks
`hasSufficientFunds`, computes `networkFee = getNetworkFee(currency)` and
`netAmount = amount - networkFee`, rejects when `netAmount <= 0`, creates the
pending withdrawal Transaction recording these fields, and locks `amount`. -/
def withdrawRequest (w : Wallet) (amount : ℚ) (c : Currency) :
    Except WithdrawError (Wallet × Transaction) :=
  if ¬ hasSufficientFunds w amount c then .error .insufficientFunds
  else
    let fee := getNetworkFee c
    let net := amount - fee
    if net ≤ 0 then .error .amountTooSmall
    else
      let tx : Transaction :=
        { status := .pending, amount := amount, networkFee := fee, platformFee := 0,
          netAmount := net, completedAt := none, cancelledAt := none,
          failureReason := none, txHash := none }
      match lockFunds w amount c with
      | .error _ => .error .internalError
      | .ok w1 => .ok (w1, tx)

/-- `PaymentService.getCryptoNetworkFee`: the same flat table with the same
`fees[currency] || 0.001` fallback. -/
def getCryptoNetworkFee : Currency → ℚ
  | .BTC => 5 / 10000
  | .ETH => 5 / 1000
  | .USDT => 1
  | .USDC => 1
  | _ => 1 / 1000

/-- Errors thrown inside `PaymentService.processCryptoWithdrawal`. -/
inductive PaymentError where
  | insufficientFunds
  | amountTooSmall
  | cannotUnlock
  | validationFailed
  | transactionFailed
deriving DecidableEq, Repr

/-- Wallet method exceptions as seen by the payment service catch block. -/
def liftWalletError : WalletError → PaymentError
  | .insufficientFunds => .insufficientFunds
  | .cannotUnlock => .cannotUnlock
  | .validationFailed => .validationFailed

/-- The catch block of `processCryptoWithdrawal`: it attempts a compensating
`unlockFunds(amount, currency)` and swallows any error that unlock itself throws. -/
def compensateUnlock (w : Wallet) (amount : ℚ) (c : Currency) : Wallet :=
  match unlockFunds w amount c with
  | .ok w1 => w1
  | .error _ => w

/-- The observable result of `processCryptoWithdrawal`: the final wallet, the
status of the withdrawal Transaction when one was created, and the error
rethrown by the catch block on failure. -/
structure WithdrawalOutcome where
  wallet : Wallet
  txStatus : Option TransactionStatus
  err : Option PaymentError
deriving DecidableEq, Repr

/-- `PaymentService.processCryptoWithdrawal`: checks `hasSufficientFunds`, computes
the network fee and `netAmount = amount - networkFee` (rejecting `netAmount <= 0`),
locks `amount`, creates the pending Transaction, sends the (mock, always successful)
crypto transaction, then settles by `deductFunds(amount)` followed by
`unlockFunds(amount)` and `markAsCompleted`.  Every throw inside the try block goes
through the catch block, which runs the compensating `compensateUnlock` and
rethrows; a Transaction created before the throw stays pending. -/
def processCryptoWithdrawal (w : Wallet) (amount : ℚ) (c : Currency) : WithdrawalOutcome :=
  if ¬ hasSufficientFunds w amount c then
    ⟨compensateUnlock w amount c, none, some .insufficientFunds⟩
  else
    let fee := getCryptoNetworkFee c
    let net := amount - fee
    if net ≤ 0 then ⟨compensateUnlock w amount c, none, some .amountTooSmall⟩
    else
      match lockFunds w amount c with
      | .error e => ⟨compensateUnlock w amount c, none, some (liftWalletError e)⟩
      | .ok w1 =>
        match deductFunds w1 amount c with
        | .error e => ⟨compensateUnlock w1 amount c, some .pending, some (liftWalletError e)⟩
        | .ok w2 =>
          match unlockFunds w2 amount c with
          | .error e => ⟨compensateUnlock w2 amount c, some .pending, some (liftWalletError e)⟩
          | .ok w3 => ⟨w3, some .completed, none⟩

/-- The plan switch of `calculateInvestmentReturns`: base annual rate 8% for
plan "short", 12% for "mid", 15% for "long", 10% for anything else. -/
def planBaseRate (plan : String) : ℚ :=
  if plan = "short" then 8 / 100
  else if plan = "mid" then 12 / 100
  else if plan = "long" then 15 / 100
  else 10 / 100

/-- The shared tail of `calculateCompoundedReturns` once the periods-per-year `n`
is known: `years = days / 365`, `ratePerPeriod = annualRate / n`,
`periods = n * years`, result `principal * (1 + ratePerPeriod) ^ periods`
(real exponentiation, as `Math.pow` with a possibly non-integral exponent). -/
noncomputable def compoundTail (principal annualRate days n : ℝ) : ℝ :=
  let years := days / 365
  let ratePerPeriod := annualRate / n
  let periods := n * years
  principal * (1 + ratePerPeriod) ^ periods

/-- `calculateCompoundedReturns(principal, annualRate, days, frequency)`:
periods per year 365 / 52 / 12 / 4 for daily / weekly / monthly / quarterly;
any other frequency falls back to simple interest
`principal * (1 + annualRate * days / 365)`. -/
noncomputable def calculateCompoundedReturns
    (principal annualRate days : ℝ) (frequency : String) : ℝ :=
  if frequency = "daily" then compoundTail principal annualRate days 365
  else if frequency = "weekly" then compoundTail principal annualRate days 52
  else if frequency = "monthly" then compoundTail principal annualRate days 12
  else if frequency = "quarterly" then compoundTail principal annualRate days 4
  else principal * (1 + annualRate * days / 365)

/-- The `expectedProfit` computation of `calculateInvestmentReturns`:
`periodRate = baseAnnualRate * duration / 365` and
`expectedProfit = amount * periodRate`, overwritten by
`calculateCompoundedReturns(amount, baseAnnualRate, duration, frequency) - amount`
when `isCompounding && compoundingFrequency !== 'none'`. -/
noncomputable def investmentExpectedProfit
    (plan : String) (amount duration : ℚ) (isCompounding : Bool) (frequency : String) : ℝ :=
  let baseAnnualRate : ℝ := (planBaseRate plan : ℚ)
  let periodRate := baseAnnualRate * (duration : ℝ) / 365
  if isCompounding ∧ frequency ≠ "none" then
    calculateCompoundedReturns (amount : ℝ) baseAnnualRate (duration : ℝ) frequency - (amount : ℝ)
  else
    (amount : ℝ) * periodRate

/-- A wallet holding only USD: gross balance `bal`, locked `locked`. -/
def usdWallet (bal locked : ℚ) : Wallet :=
  ⟨⟨bal, 0, 0, 0, 0, 0, 0⟩, ⟨locked, 0, 0, 0, 0, 0, 0⟩⟩

/-- A wallet holding only BTC: gross balance `bal`, locked `locked`. -/
def btcWallet (bal locked : ℚ) : Wallet :=
  ⟨⟨0, 0, 0, bal, 0, 0, 0⟩, ⟨0, 0, 0, locked, 0, 0, 0⟩⟩

/-- A concrete operation sequence used to exercise the ledger invariant. -/
def c1SampleOps : List Op := [.add 5, .lock 3, .deduct 1, .unlock 2]

/-- A concrete completed transaction used to exercise the terminal-state claim. -/
def completedTx : Transaction :=
  { status := .completed, amount := 10, networkFee := 0, platformFee := 0,
    netAmount := 10, completedAt := some 100, cancelledAt := none,
    failureReason := none, txHash := none }

theorem CurrencyMap.get_set_same (m : CurrencyMap) (c : Currency) (v : ℚ) :
    (m.set c v).get c = v := by
  cases c <;> rfl

theorem CurrencyMap.get_set_other (m : CurrencyMap) (c c' : Currency) (v : ℚ)
    (h : c' ≠ c) : (m.set c v).get c' = m.get c' := by
  cases c <;> cases c' <;> first | rfl | exact absurd rfl h

theorem CurrencyMap.set_get_self (m : CurrencyMap) (c : Currency) :
    m.set c (m.get c) = m := by
  cases c <;> rfl

theorem CurrencyMap.set_set (m : CurrencyMap) (c : Currency) (v v' : ℚ) :
    (m.set c v).set c v' = m.set c v' := by
  cases c <;> rfl

theorem hasSufficientFunds_sub_le {w : Wallet} {a : ℚ} {c : Currency}
    (h : hasSufficientFunds w a c) (ha : 0 < a) :
    a ≤ w.balances.get c - w.lockedBalances.get c := by
  unfold hasSufficientFunds getAvailableBalance at h
  rcases le_max_iff.mp h with h0 | hx
  · linarith
  · exact hx

theorem applyOp_invariant {c : Currency} {w w' : Wallet} {op : Op}
    (hpos : 0 < op.amount) (hI : ledgerInvariant c w)
    (h : applyOp c w op = .ok w') : ledgerInvariant c w' := by
  obtain ⟨hL0, hLB⟩ := hI
  cases op with
  | lock a =>
    simp only [Op.amount] at hpos
    simp only [applyOp, lockFunds] at h
    split at h
    · rename_i hs
      have hle := hasSufficientFunds_sub_le hs hpos
      cases h
      constructor
      · simp only [CurrencyMap.get_set_same]
        linarith
      · simp only [CurrencyMap.get_set_same]
        linarith
    · exact absurd h (by simp)
  | unlock a =>
    simp only [Op.amount] at hpos
    simp only [applyOp, unlockFunds] at h
    split at h
    · exact absurd h (by simp)
    · cases h
      constructor
      · simp only [CurrencyMap.get_set_same]
        exact le_max_left _ _
      · simp only [CurrencyMap.get_set_same]
        have : max 0 (w.lockedBalances.get c - a) ≤ w.lockedBalances.get c :=
          max_le hL0 (by linarith)
        linarith
  | add a =>
    simp only [Op.amount] at hpos
    simp only [applyOp, addFunds] at h
    split at h
    · exact absurd h (by simp)
    · cases h
      constructor
      · simpa using hL0
      · simp only [CurrencyMap.get_set_same]
        linarith
  | deduct a =>
    simp only [Op.amount] at hpos
    simp only [applyOp, deductFunds] at h
    split at h
    · rename_i hs
      have hle := hasSufficientFunds_sub_le hs hpos
      cases h
      constructor
      · simpa using hL0
      · simp only [CurrencyMap.get_set_same]
        have : w.lockedBalances.get c ≤ w.balances.get c - a := by linarith
        calc w.lockedBalances.get c ≤ w.balances.get c - a := this
        _ ≤ max 0 (w.balances.get c - a) := le_max_right _ _
    · exact absurd h (by simp)

/-- C1: starting from any wallet whose (user, currency) entry satisfies
`available >= locked >= 0` (every freshly created wallet does, all entries
defaulting to 0), any sequence of successful Ledger operations `lockFunds`,
`unlockFunds`, `addFunds`, `deductFunds` on that pair, each invoked with a
positive amount and taking effect only when its precondition holds, keeps the
invariant `available >= locked >= 0` — here `available` is the gross balance
`balances[currency]` and `locked` is `lockedBalances[currency]`.  The
statement quantifies over all operation lists, so it applies to every
intermediate point of a longer sequence as well. -/
theorem c1_ledger_invariant (c : Currency) :
    ∀ (ops : List Op) (w w' : Wallet),
      (∀ op ∈ ops, 0 < op.amount) → ledgerInvariant c w →
      runOps c w ops = .ok w' → ledgerInvariant c w' := by
  intro ops
  induction ops with
  | nil =>
    intro w w' _ hI h
    simp only [runOps, Except.ok.injEq] at h
    rwa [← h]
  | cons op rest ih =>
    intro w w' hpos hI h
    simp only [runOps] at h
    cases hop : applyOp c w op with
    | error e => rw [hop] at h; cases h
    | ok w1 =>
      rw [hop] at h
      exact ih w1 w'
        (fun o ho => hpos o (List.mem_cons_of_mem _ ho))
        (applyOp_invariant (hpos op (List.mem_cons_self _ _)) hI hop) h

theorem c1_witness :
    runOps .USD (usdWallet 0 0) c1SampleOps = .ok (usdWallet 4 1) ∧
    ledgerInvariant .USD (usdWallet 4 1) := by
  have hrun : runOps .USD (usdWallet 0 0) c1SampleOps = .ok (usdWallet 4 1) := by
    norm_num [runOps, applyOp, c1SampleOps, lockFunds, unlockFunds, addFunds, deductFunds,
      hasSufficientFunds, getAvailableBalance, usdWallet, CurrencyMap.get, CurrencyMap.set]
  refine ⟨hrun, c1_ledger_invariant .USD c1SampleOps (usdWallet 0 0) (usdWallet 4 1) ?_ ?_ hrun⟩
  · intro op hop
    fin_cases hop <;> norm_num [Op.amount]
  · constructor <;> norm_num [usdWallet, CurrencyMap.get]

/-- C4: for every wallet with a non-negative locked entry (the schema enforces
min 0) and every amount > 0, `deductFunds` fails with `Insufficient funds`
exactly when `available - locked < amount` (`available` being the gross
balance); on success it decreases the gross balance by exactly `amount`,
leaves every other balance entry and all of `lockedBalances` unchanged.  On
failure the method throws before assigning, so the wallet is unchanged by
construction of the embedding. -/
theorem c4_deduct_funds (w : Wallet) (a : ℚ) (c : Currency)
    (ha : 0 < a) (hL : 0 ≤ w.lockedBalances.get c) :
    (deductFunds w a c = .error .insufficientFunds ↔
      w.balances.get c - w.lockedBalances.get c < a) ∧
    (∀ w', deductFunds w a c = .ok w' →
      w'.balances.get c = w.balances.get c - a ∧
      (∀ c', c' ≠ c → w'.balances.get c' = w.balances.get c') ∧
      w'.lockedBalances = w.lockedBalances) := by
  unfold deductFunds
  by_cases hs : hasSufficientFunds w a c
  · rw [if_pos hs]
    have hle := hasSufficientFunds_sub_le hs ha
    constructor
    · constructor
      · intro h; exact absurd h (by simp)
      · intro h; linarith
    · intro w' h
      rw [Except.ok.injEq] at h
      subst h
      refine ⟨?_, ?_, rfl⟩
      · simp only [CurrencyMap.get_set_same]
        rw [max_eq_right]
        linarith
      · intro c' hc'
        simp only [CurrencyMap.get_set_other _ _ _ _ hc']
  · rw [if_neg hs]
    unfold hasSufficientFunds getAvailableBalance at hs
    push_neg at hs
    constructor
    · constructor
      · intro _
        have := le_max_right (0 : ℚ) (w.balances.get c - w.lockedBalances.get c)
        linarith
      · intro _; rfl
    · intro w' h
      exact absurd h (by simp)

theorem c4_witness :
    deductFunds (usdWallet 10 2) 9 .USD = .error .insufficientFunds := by
  refine ((c4_deduct_funds (usdWallet 10 2) 9 .USD (by norm_num) ?_).1).mpr ?_
  · norm_num [usdWallet, CurrencyMap.get]
  · norm_num [usdWallet, CurrencyMap.get]

/-- C5 counterexample: the claim says an amount <= 0 makes `addFunds` fail with
an invalid-amount error, but `addFunds` performs no validation of the amount
itself: on a wallet holding 100 USD, `addFunds(-50, 'USD')` succeeds and
leaves 50 USD (the save-time `min: 0` check passes, the resulting balance 50
being non-negative) instead of failing. -/
theorem c5_counterexample :
    addFunds (usdWallet 100 0) (-50) .USD = .ok (usdWallet 50 0) := by
  norm_num [addFunds, usdWallet, CurrencyMap.set, CurrencyMap.get]

/-- C5 amended: `addFunds(amount, currency)` performs no validation of the
amount itself — there is no invalid-amount rejection of `amount <= 0`.  Its
only failure mode is the schema validation run by `save()`: the call fails
(with a validation error, persisting nothing) exactly when the resulting
balance `balances[currency] + amount` would be negative, which a schema-valid
wallet only reaches with `amount < 0`.  Every other call succeeds, adding
`amount` to that currency's gross balance and changing no other balance entry
and no locked entry; in particular on a wallet with a non-negative balance
entry every amount > 0 succeeds and increases the gross balance by exactly
`amount`. -/
theorem c5_add_funds_amended (w : Wallet) (a : ℚ) (c : Currency) :
    (addFunds w a c = .error .validationFailed ↔ w.balances.get c + a < 0) ∧
    (∀ e, addFunds w a c = .error e → e = .validationFailed) ∧
    (∀ w', addFunds w a c = .ok w' →
      w'.balances.get c = w.balances.get c + a ∧
      (∀ c', c' ≠ c → w'.balances.get c' = w.balances.get c') ∧
      w'.lockedBalances = w.lockedBalances) ∧
    (0 ≤ w.balances.get c → 0 < a →
      addFunds w a c =
        .ok { w with balances := w.balances.set c (w.balances.get c + a) }) := by
  unfold addFunds
  by_cases hneg : w.balances.get c + a < 0
  · rw [if_pos hneg]
    refine ⟨⟨fun _ => hneg, fun _ => rfl⟩, ?_, ?_, ?_⟩
    · intro e he
      rw [Except.error.injEq] at he
      rw [← he]
    · intro w' h
      exact absurd h (by simp)
    · intro h0 hpos
      exact absurd hneg (by push_neg; linarith)
  · rw [if_neg hneg]
    refine ⟨⟨fun h => absurd h (by simp), fun h => absurd h hneg⟩, ?_, ?_, ?_⟩
    · intro e he
      exact absurd he (by simp)
    · intro w' h
      rw [Except.ok.injEq] at h
      subst h
      exact ⟨CurrencyMap.get_set_same _ _ _,
        fun c' hc' => CurrencyMap.get_set_other _ _ _ _ hc', rfl⟩
    · intro _ _
      rfl

theorem c5_witness :
    addFunds (usdWallet 100 0) 30 .USD =
      .ok { usdWallet 100 0 with
        balances :=
          (usdWallet 100 0).balances.set .USD ((usdWallet 100 0).balances.get .USD + 30) } ∧
    addFunds (usdWallet 100 0) (-200) .USD = .error .validationFailed :=
  ⟨(c5_add_funds_amended (usdWallet 100 0) 30 .USD).2.2.2
      (by norm_num [usdWallet, CurrencyMap.get]) (by norm_num),
    ((c5_add_funds_amended (usdWallet 100 0) (-200) .USD).1).mpr
      (by norm_num [usdWallet, CurrencyMap.get])⟩

/-- C6: for every wallet with a non-negative locked entry and every amount > 0
satisfying the lock precondition `available - locked >= amount` (`available`
gross), `lockFunds` immediately followed by `unlockFunds` of the same amount
restores the pre-lock wallet exactly: the resulting wallet is equal to the
original, so every entry of `balances` and `lockedBalances` is restored. -/
theorem c6_lock_unlock_roundtrip (w : Wallet) (a : ℚ) (c : Currency)
    (ha : 0 < a) (hL : 0 ≤ w.lockedBalances.get c)
    (hpre : a ≤ w.balances.get c - w.lockedBalances.get c) :
    lockFunds w a c =
      .ok { w with lockedBalances := w.lockedBalances.set c (w.lockedBalances.get c + a) } ∧
    unlockFunds
      { w with lockedBalances := w.lockedBalances.set c (w.lockedBalances.get c + a) } a c =
      .ok w := by
  have hs : hasSufficientFunds w a c := by
    unfold hasSufficientFunds getAvailableBalance
    exact le_max_of_le_right hpre
  constructor
  · unfold lockFunds
    rw [if_pos hs]
  · unfold unlockFunds
    rw [if_neg (by simp only [CurrencyMap.get_set_same]; push_neg; linarith)]
    simp only [CurrencyMap.get_set_same, CurrencyMap.set_set]
    rw [show w.lockedBalances.get c + a - a = w.lockedBalances.get c from by ring,
      max_eq_right hL, CurrencyMap.set_get_self]

theorem c6_witness :
    lockFunds (usdWallet 10 2) 5 .USD =
      .ok { usdWallet 10 2 with
        lockedBalances :=
          (usdWallet 10 2).lockedBalances.set .USD
            ((usdWallet 10 2).lockedBalances.get .USD + 5) } ∧
    unlockFunds
      { usdWallet 10 2 with
        lockedBalances :=
          (usdWallet 10 2).lockedBalances.set .USD
            ((usdWallet 10 2).lockedBalances.get .USD + 5) } 5 .USD =
      .ok (usdWallet 10 2) :=
  c6_lock_unlock_roundtrip (usdWallet 10 2) 5 .USD (by norm_num)
    (by norm_num [usdWallet, CurrencyMap.get])
    (by norm_num [usdWallet, CurrencyMap.get])

/-- C3 (behaviour of the code at the failing input): the Transaction mark
methods enforce no terminal state.  On a transaction already `completed`
(with `completedAt = 100` and no hash), `markAsCompleted(200, "0xabc")`
succeeds and overwrites `completedAt` and `txHash`, and `markAsFailed` /
`markAsCancelled` likewise move the record out of its terminal status —
where the claim requires every such call to fail with
`InvalidStateTransition` and leave the record unchanged. -/
theorem c3_terminal_states_not_enforced :
    completedTx.status = .completed ∧
    markAsCompleted 200 (some "0xabc") completedTx =
      { completedTx with completedAt := some 200, txHash := some "0xabc" } ∧
    (markAsCompleted 200 (some "0xabc") completedTx).completedAt ≠ completedTx.completedAt ∧
    (markAsFailed "late failure" completedTx).status = .failed ∧
    (markAsCancelled 300 completedTx).status = .cancelled := by
  refine ⟨rfl, rfl, ?_, rfl, rfl⟩
  simp [markAsCompleted, completedTx]

/-- C7: for every non-compounding investment (compounding disabled, or
frequency "none"), the accrual computation yields
`expectedProfit = amount * baseAnnualRate * duration / 365`, where the base
annual rate is 8% for plan "short", 12% for "mid", 15% for "long" and 10%
for any other plan string; in particular principal 1000, plan "mid",
duration 365 days, no compounding gives expectedProfit 120. -/
theorem c7_simple_interest :
    (∀ (plan : String) (amount duration : ℚ) (isComp : Bool),
      investmentExpectedProfit plan amount duration isComp "none" =
        (amount : ℝ) * (planBaseRate plan : ℝ) * (duration : ℝ) / 365) ∧
    (∀ (plan frequency : String) (amount duration : ℚ),
      investmentExpectedProfit plan amount duration false frequency =
        (amount : ℝ) * (planBaseRate plan : ℝ) * (duration : ℝ) / 365) ∧
    planBaseRate "short" = 8 / 100 ∧
    planBaseRate "mid" = 12 / 100 ∧
    planBaseRate "long" = 15 / 100 ∧
    (∀ plan : String, plan ≠ "short" → plan ≠ "mid" → plan ≠ "long" →
      planBaseRate plan = 10 / 100) ∧
    investmentExpectedProfit "mid" 1000 365 false "none" = 120 := by
  have hnone : ∀ (plan : String) (amount duration : ℚ) (isComp : Bool),
      investmentExpectedProfit plan amount duration isComp "none" =
        (amount : ℝ) * (planBaseRate plan : ℝ) * (duration : ℝ) / 365 := by
    intro plan amount duration isComp
    simp only [investmentExpectedProfit]
    rw [if_neg (by simp)]
    ring
  have hmid : planBaseRate "mid" = 12 / 100 := by
    unfold planBaseRate
    rw [if_neg (by decide), if_pos rfl]
  refine ⟨hnone, ?_, ?_, hmid, ?_, ?_, ?_⟩
  · intro plan frequency amount duration
    simp only [investmentExpectedProfit]
    rw [if_neg (by simp)]
    ring
  · unfold planBaseRate
    rw [if_pos rfl]
  · unfold planBaseRate
    rw [if_neg (by decide), if_neg (by decide), if_pos rfl]
  · intro plan h1 h2 h3
    unfold planBaseRate
    rw [if_neg h1, if_neg h2, if_neg h3]
  · rw [hnone "mid" 1000 365 false, hmid]
    push_cast
    norm_num

/-- C8: with compounding enabled, `calculateCompoundedReturns` computes
`amount * (1 + rate/n) ^ (n * duration / 365)` with n = 365, 52, 12, 4 for
frequency daily, weekly, monthly, quarterly, and any other frequency
("none" included) falls back to simple interest; for principal 1000, rate
12%/yr, duration 365 days, monthly compounding the value is
1000 * 1.01 ^ 12, between 1126.82 and 1126.84, so the compounded profit is
about 126.83 and strictly exceeds the simple-interest profit of the same
parameters. -/
theorem c8_compound_interest :
    (∀ p r d : ℝ, calculateCompoundedReturns p r d "daily" =
      p * (1 + r / 365) ^ (365 * d / 365)) ∧
    (∀ p r d : ℝ, calculateCompoundedReturns p r d "weekly" =
      p * (1 + r / 52) ^ (52 * d / 365)) ∧
    (∀ p r d : ℝ, calculateCompoundedReturns p r d "monthly" =
      p * (1 + r / 12) ^ (12 * d / 365)) ∧
    (∀ p r d : ℝ, calculateCompoundedReturns p r d "quarterly" =
      p * (1 + r / 4) ^ (4 * d / 365)) ∧
    (∀ p r d : ℝ, calculateCompoundedReturns p r d "none" =
      p * (1 + r * d / 365)) ∧
    1126.82 < calculateCompoundedReturns 1000 (12 / 100) 365 "monthly" ∧
    calculateCompoundedReturns 1000 (12 / 100) 365 "monthly" < 1126.84 ∧
    126.82 < investmentExpectedProfit "mid" 1000 365 true "monthly" ∧
    investmentExpectedProfit "mid" 1000 365 true "monthly" < 126.84 ∧
    investmentExpectedProfit "mid" 1000 365 false "monthly" <
      investmentExpectedProfit "mid" 1000 365 true "monthly" := by
  have hexp : ∀ n d : ℝ, n * (d / 365) = n * d / 365 := fun n d => by ring
  have hdaily : ∀ p r d : ℝ, calculateCompoundedReturns p r d "daily" =
      p * (1 + r / 365) ^ (365 * d / 365) := by
    intro p r d
    simp only [calculateCompoundedReturns, compoundTail]
    rw [if_pos trivial, hexp]
  have hweekly : ∀ p r d : ℝ, calculateCompoundedReturns p r d "weekly" =
      p * (1 + r / 52) ^ (52 * d / 365) := by
    intro p r d
    simp only [calculateCompoundedReturns, compoundTail]
    rw [if_neg (by decide), if_pos trivial, hexp]
  have hmonthly : ∀ p r d : ℝ, calculateCompoundedReturns p r d "monthly" =
      p * (1 + r / 12) ^ (12 * d / 365) := by
    intro p r d
    simp only [calculateCompoundedReturns, compoundTail]
    rw [if_neg (by decide), if_neg (by decide), if_pos trivial, hexp]
  have hquarterly : ∀ p r d : ℝ, calculateCompoundedReturns p r d "quarterly" =
      p * (1 + r / 4) ^ (4 * d / 365) := by
    intro p r d
    simp only [calculateCompoundedReturns, compoundTail]
    rw [if_neg (by decide), if_neg (by decide), if_neg (by decide), if_pos trivial, hexp]
  have hnone : ∀ p r d : ℝ, calculateCompoundedReturns p r d "none" =
      p * (1 + r * d / 365) := by
    intro p r d
    simp only [calculateCompoundedReturns, compoundTail]
    rw [if_neg (by decide), if_neg (by decide), if_neg (by decide), if_neg (by decide)]
  have hval : calculateCompoundedReturns 1000 (12 / 100) 365 "monthly" =
      1000 * ((101 : ℝ) / 100) ^ (12 : ℕ) := by
    rw [hmonthly]
    have e1 : (12 : ℝ) * 365 / 365 = ((12 : ℕ) : ℝ) := by norm_num
    rw [e1, Real.rpow_natCast]
    norm_num
  have hlow : (1126.82 : ℝ) < 1000 * ((101 : ℝ) / 100) ^ (12 : ℕ) := by norm_num
  have hhigh : 1000 * ((101 : ℝ) / 100) ^ (12 : ℕ) < (1126.84 : ℝ) := by norm_num
  have hmid : (planBaseRate "mid" : ℚ) = 12 / 100 := by
    unfold planBaseRate
    rw [if_neg (by decide), if_pos rfl]
  have hprofit : investmentExpectedProfit "mid" 1000 365 true "monthly" =
      calculateCompoundedReturns 1000 (12 / 100) 365 "monthly" - 1000 := by
    simp only [investmentExpectedProfit]
    rw [if_pos (by simp), hmid]
    push_cast
    norm_num
  have hsimple : investmentExpectedProfit "mid" 1000 365 false "monthly" = 120 := by
    simp only [investmentExpectedProfit]
    rw [if_neg (by simp), hmid]
    push_cast
    norm_num
  refine ⟨hdaily, hweekly, hmonthly, hquarterly, hnone, ?_, ?_, ?_, ?_, ?_⟩
  · rw [hval]; exact hlow
  · rw [hval]; exact hhigh
  · rw [hprofit, hval]; linarith
  · rw [hprofit, hval]; linarith
  · rw [hprofit, hval, hsimple]; linarith

/-- C9 counterexample: the claim's fee table assigns fiat currencies a zero
network fee, under which a 0.0005 USD withdrawal would have
`netAmount = 0.0005 - 0 > 0` and proceed; but `getNetworkFee` falls back to
`fees[currency] || 0.001`, so USD carries fee 0.001 and the code rejects the
request with the amount-too-small error. -/
theorem c9_counterexample :
    getNetworkFee .USD = 1 / 1000 ∧
    (0 : ℚ) < 5 / 10000 - 0 ∧
    withdrawRequest (usdWallet 1000 0) (5 / 10000) .USD = .error .amountTooSmall := by
  refine ⟨rfl, by norm_num, ?_⟩
  norm_num [withdrawRequest, hasSufficientFunds, getAvailableBalance, usdWallet,
    CurrencyMap.get, getNetworkFee]

/-- C9 amended: the network fee table is BTC 0.0005, ETH 0.005, USDT 1, USDC 1,
and 0.001 for every other currency (the fiat ones included) via the
`fees[currency] || 0.001` fallback; among withdrawal requests that pass the
sufficient-funds check, the request is rejected with the amount-too-small
error exactly when `amount - networkFee(currency) <= 0`, and when it
proceeds the created pending transaction records
`netAmount = amount - networkFee`. -/
theorem c9_withdraw_amended :
    getNetworkFee .BTC = 5 / 10000 ∧
    getNetworkFee .ETH = 5 / 1000 ∧
    getNetworkFee .USDT = 1 ∧
    getNetworkFee .USDC = 1 ∧
    getNetworkFee .USD = 1 / 1000 ∧
    getNetworkFee .EUR = 1 / 1000 ∧
    getNetworkFee .GBP = 1 / 1000 ∧
    (∀ (w : Wallet) (a : ℚ) (c : Currency), hasSufficientFunds w a c →
      ((withdrawRequest w a c = .error .amountTooSmall ↔ a - getNetworkFee c ≤ 0) ∧
       (∀ w' tx, withdrawRequest w a c = .ok (w', tx) →
         tx.netAmount = a - getNetworkFee c ∧ tx.amount = a ∧
         tx.networkFee = getNetworkFee c ∧ tx.status = .pending))) := by
  refine ⟨rfl, rfl, rfl, rfl, rfl, rfl, rfl, ?_⟩
  intro w a c hs
  simp only [withdrawRequest]
  rw [if_neg (not_not_intro hs)]
  by_cases hnet : a - getNetworkFee c ≤ 0
  · rw [if_pos hnet]
    constructor
    · exact ⟨fun _ => hnet, fun _ => rfl⟩
    · intro w' tx h
      exact absurd h (by simp)
  · rw [if_neg hnet]
    have hlock : lockFunds w a c =
        .ok { w with lockedBalances :=
          w.lockedBalances.set c (w.lockedBalances.get c + a) } := by
      unfold lockFunds
      rw [if_pos hs]
    simp only [hlock]
    constructor
    · constructor
      · intro h
        exact absurd h (by simp)
      · intro h
        exact absurd h hnet
    · intro w' tx h
      simp only [Except.ok.injEq, Prod.mk.injEq] at h
      obtain ⟨-, htx⟩ := h
      subst htx
      exact ⟨rfl, rfl, rfl, rfl⟩

theorem c9_witness :
    withdrawRequest (btcWallet 1 0) (3 / 10000) .BTC = .error .amountTooSmall := by
  have hs : hasSufficientFunds (btcWallet 1 0) (3 / 10000) .BTC := by
    norm_num [hasSufficientFunds, getAvailableBalance, btcWallet, CurrencyMap.get]
  exact ((c9_withdraw_amended.2.2.2.2.2.2.2 (btcWallet 1 0) (3 / 10000) .BTC hs).1).mpr
    (by norm_num [getNetworkFee])

/-- C10: in `processCryptoWithdrawal` the settlement `deductFunds(amount)` runs
while the withdrawal's own lock of `amount` is still held, so whenever the
request passes the entry checks (sufficient spendable funds and a positive
net amount) but the gross balance is below the previously locked funds plus
twice the amount, settlement throws `Insufficient funds`; the catch block
then runs the compensating unlock, restoring the wallet exactly, and the
withdrawal transaction stays pending instead of completing.  A withdrawal of
the entire spendable balance (`amount = available - locked > fee`) always
lands in this case, since then `balance = locked + amount < locked + 2 * amount`. -/
theorem c10_settlement_deduct_while_locked (w : Wallet) (a : ℚ) (c : Currency)
    (ha : 0 < a) (hL : 0 ≤ w.lockedBalances.get c)
    (hsuff : a ≤ w.balances.get c - w.lockedBalances.get c)
    (hfee : getCryptoNetworkFee c < a)
    (hover : w.balances.get c < w.lockedBalances.get c + 2 * a) :
    processCryptoWithdrawal w a c = ⟨w, some .pending, some .insufficientFunds⟩ := by
  have hs : hasSufficientFunds w a c := by
    unfold hasSufficientFunds getAvailableBalance
    exact le_max_of_le_right hsuff
  have hlock : lockFunds w a c =
      .ok { w with lockedBalances :=
        w.lockedBalances.set c (w.lockedBalances.get c + a) } := by
    unfold lockFunds
    rw [if_pos hs]
  have hded : deductFunds
      { w with lockedBalances :=
        w.lockedBalances.set c (w.lockedBalances.get c + a) } a c =
      .error .insufficientFunds := by
    unfold deductFunds
    rw [if_neg ?hns]
    case hns =>
      unfold hasSufficientFunds getAvailableBalance
      simp only [CurrencyMap.get_set_same]
      push_neg
      apply max_lt ha
      linarith
  have hcomp : compensateUnlock
      { w with lockedBalances :=
        w.lockedBalances.set c (w.lockedBalances.get c + a) } a c = w := by
    unfold compensateUnlock unlockFunds
    rw [if_neg (by simp only [CurrencyMap.get_set_same]; push_neg; linarith)]
    simp only [CurrencyMap.get_set_same, CurrencyMap.set_set]
    rw [show w.lockedBalances.get c + a - a = w.lockedBalances.get c from by ring,
      max_eq_right hL, CurrencyMap.set_get_self]
  simp only [processCryptoWithdrawal]
  rw [if_neg (not_not_intro hs), if_neg (by push_neg; linarith)]
  simp only [hlock, hded, hcomp]
  rfl

theorem c10_witness :
    processCryptoWithdrawal (btcWallet 10 0) 10 .BTC =
      ⟨btcWallet 10 0, some .pending, some .insufficientFunds⟩ :=
  c10_settlement_deduct_while_locked (btcWallet 10 0) 10 .BTC (by norm_num)
    (by norm_num [btcWallet, CurrencyMap.get])
    (by norm_num [btcWallet, CurrencyMap.get])
    (by norm_num [getCryptoNetworkFee])
    (by norm_num [btcWallet, CurrencyMap.get])

/-- C2 counterexample: start from a wallet with 1000 USD spendable, create an
investment of 100 (locking 100, deducting nothing from the gross balance),
and cancel it after exactly 7 days.  Cancellation succeeds and the spendable
balance becomes 1099 — the pre-investment spendable balance 1000 plus the
refund 99 — whereas the claim says it should equal the pre-investment value
minus the 1% fee, 999. -/
theorem c2_counterexample :
    createInvestment 0 (usdWallet 1000 0) 100 =
      .ok (usdWallet 1000 100, ⟨.active, 0, 100⟩,
        ⟨.completed, 100, 0, 0, 100, none, none, none, none⟩) ∧
    (cancelInvestment (7 * msPerDay) ⟨.active, 0, 100⟩ (usdWallet 1000 100)).err = none ∧
    getAvailableBalance
      (cancelInvestment (7 * msPerDay) ⟨.active, 0, 100⟩ (usdWallet 1000 100)).wallet
      .USD = 1099 ∧
    getAvailableBalance (usdWallet 1000 0) .USD - 100 * (1 / 100) = 999 ∧
    (1099 : ℚ) ≠ 999 := by
  have hd : ¬(((7 * msPerDay : ℤ)).fdiv msPerDay < 7) := by decide
  have hd0 : ¬(((7 * msPerDay - 0 : ℤ)).fdiv msPerDay < 7) := by decide
  have hout : cancelInvestment (7 * msPerDay) ⟨.active, 0, 100⟩ (usdWallet 1000 100) =
      ⟨⟨.cancelled, 0, 100⟩, usdWallet 1099 0, some 99, some 1,
        some ⟨.completed, 99, 0, 0, 99, none, none, none, none⟩, none⟩ := by
    norm_num [cancelInvestment, hd, hd0, Investment.cancel, unlockFunds, addFunds,
      usdWallet, CurrencyMap.get, CurrencyMap.set]
  refine ⟨?_, ?_, ?_, ?_, by norm_num⟩
  · norm_num [createInvestment, lockFunds, hasSufficientFunds, getAvailableBalance,
      usdWallet, CurrencyMap.get, CurrencyMap.set]
  · rw [hout]
  · rw [hout]
    norm_num [getAvailableBalance, usdWallet, CurrencyMap.get]
  · norm_num [getAvailableBalance, usdWallet, CurrencyMap.get]

/-- C2 amended: for every investment created via `createInvestment` (which
locks the principal but never deducts it from the gross balance): cancelling
at or after 7 days succeeds, fully unlocks the principal from
`lockedBalances`, and credits exactly `principal * (1 - 0.01)` to the gross
available balance via `addFunds` — so the user's spendable balance after
cancellation equals its pre-investment value PLUS `principal * (1 - 0.01)`
(not minus the 1% fee: the principal itself was never removed, so the refund
is credited on top of it); cancelling an active investment younger than
7 days fails with the lock-period error and leaves the wallet and the
investment unchanged. -/
theorem c2_cancel_investment_amended (t0 now : ℤ) (w w1 : Wallet) (a : ℚ)
    (inv : Investment) (tx : Transaction)
    (ha : 0 < a) (hL : 0 ≤ w.lockedBalances.get .USD)
    (hcreate : createInvestment t0 w a = .ok (w1, inv, tx)) :
    (7 * msPerDay ≤ now - t0 →
      (cancelInvestment now inv w1).err = none ∧
      (cancelInvestment now inv w1).investment.status = .cancelled ∧
      (cancelInvestment now inv w1).refundAmount = some (a - a * (1 / 100)) ∧
      (cancelInvestment now inv w1).wallet.lockedBalances = w.lockedBalances ∧
      (cancelInvestment now inv w1).wallet.balances.get .USD =
        w.balances.get .USD + (a - a * (1 / 100)) ∧
      (∀ c', c' ≠ .USD →
        (cancelInvestment now inv w1).wallet.balances.get c' = w.balances.get c') ∧
      getAvailableBalance (cancelInvestment now inv w1).wallet .USD =
        getAvailableBalance w .USD + (a - a * (1 / 100))) ∧
    (now - t0 < 7 * msPerDay →
      cancelInvestment now inv w1 =
        ⟨inv, w1, none, none, none, some .lockPeriodActive⟩) := by
  have hmsPos : (0 : ℤ) < msPerDay := by norm_num [msPerDay]
  have hfdiv_ge : ∀ x : ℤ, 7 * msPerDay ≤ x → ¬(x.fdiv msPerDay < 7) := by
    intro x hx
    rw [Int.fdiv_eq_ediv _ (le_of_lt hmsPos)]
    push_neg
    exact (Int.le_ediv_iff_mul_le hmsPos).mpr hx
  have hfdiv_lt : ∀ x : ℤ, x < 7 * msPerDay → x.fdiv msPerDay < 7 := by
    intro x hx
    rw [Int.fdiv_eq_ediv _ (le_of_lt hmsPos)]
    exact (Int.ediv_lt_iff_lt_mul hmsPos).mpr hx
  unfold createInvestment at hcreate
  by_cases hsf : hasSufficientFunds w a .USD
  · rw [if_neg (not_not_intro hsf)] at hcreate
    have hlock : lockFunds w a .USD =
        .ok { w with lockedBalances :=
          w.lockedBalances.set .USD (w.lockedBalances.get .USD + a) } := by
      unfold lockFunds
      rw [if_pos hsf]
    rw [hlock] at hcreate
    simp only [Except.ok.injEq, Prod.mk.injEq] at hcreate
    obtain ⟨hw1, hinv, -⟩ := hcreate
    subst hw1
    subst hinv
    have hble := hasSufficientFunds_sub_le hsf ha
    have hunlock : unlockFunds
        { w with lockedBalances :=
          w.lockedBalances.set .USD (w.lockedBalances.get .USD + a) } a .USD = .ok w := by
      unfold unlockFunds
      rw [if_neg (by simp only [CurrencyMap.get_set_same]; push_neg; linarith)]
      simp only [CurrencyMap.get_set_same, CurrencyMap.set_set]
      rw [show w.lockedBalances.get .USD + a - a = w.lockedBalances.get .USD from by ring,
        max_eq_right hL, CurrencyMap.set_get_self]
    constructor
    · intro hge
      have hout : cancelInvestment now ⟨.active, t0, a⟩
          { w with lockedBalances :=
            w.lockedBalances.set .USD (w.lockedBalances.get .USD + a) } =
          ⟨⟨.cancelled, t0, a⟩,
            { w with balances :=
              w.balances.set .USD (w.balances.get .USD + (a - a * (1 / 100))) },
            some (a - a * (1 / 100)), some (a * (1 / 100)),
            some ⟨.completed, a - a * (1 / 100), 0, 0, a - a * (1 / 100),
              none, none, none, none⟩, none⟩ := by
        have haddf : addFunds w (a - a * (1 / 100)) .USD =
            .ok { w with balances :=
              w.balances.set .USD (w.balances.get .USD + (a - a * (1 / 100))) } := by
          unfold addFunds
          rw [if_neg (by push_neg; linarith)]
        simp only [cancelInvestment]
        rw [if_neg (by simp), if_neg (hfdiv_ge _ hge)]
        simp only [hunlock, haddf, Investment.cancel]
      rw [hout]
      refine ⟨rfl, rfl, rfl, rfl,
        CurrencyMap.get_set_same w.balances .USD
          (w.balances.get .USD + (a - a * (1 / 100))),
        fun c' hc' => CurrencyMap.get_set_other w.balances .USD c'
          (w.balances.get .USD + (a - a * (1 / 100))) hc', ?_⟩
      unfold getAvailableBalance
      simp only [CurrencyMap.get_set_same]
      rw [max_eq_right (by linarith), max_eq_right (by linarith)]
      ring
    · intro hlt
      simp only [cancelInvestment]
      rw [if_neg (by simp), if_pos (hfdiv_lt _ hlt)]
  · rw [if_pos hsf] at hcreate
    exact absurd hcreate (by simp)

theorem c2_witness :
    (7 : ℤ) * msPerDay ≤ 7 * msPerDay - 0 ∧
    (cancelInvestment (7 * msPerDay) ⟨.active, 0, 100⟩ (usdWallet 1000 100)).err = none ∧
    getAvailableBalance
      (cancelInvestment (7 * msPerDay) ⟨.active, 0, 100⟩ (usdWallet 1000 100)).wallet
      .USD = getAvailableBalance (usdWallet 1000 0) .USD + (100 - 100 * (1 / 100)) := by
  have hcreate : createInvestment 0 (usdWallet 1000 0) 100 =
      .ok (usdWallet 1000 100, ⟨.active, 0, 100⟩,
        ⟨.completed, 100, 0, 0, 100, none, none, none, none⟩) := by
    norm_num [createInvestment, lockFunds, hasSufficientFunds, getAvailableBalance,
      usdWallet, CurrencyMap.get, CurrencyMap.set]
  have hge : (7 : ℤ) * msPerDay ≤ 7 * msPerDay - 0 := by norm_num
  have h := (c2_cancel_investment_amended 0 (7 * msPerDay) (usdWallet 1000 0)
    (usdWallet 1000 100) 100 ⟨.active, 0, 100⟩
    ⟨.completed, 100, 0, 0, 100, none, none, none, none⟩
    (by norm_num) (by norm_num [usdWallet, CurrencyMap.get]) hcreate).1 hge
  exact ⟨hge, h.1, h.2.2.2.2.2.2⟩

theorem c7_witness : planBaseRate "flex" = 10 / 100 :=
  c7_simple_interest.2.2.2.2.2.1 "flex" (by decide) (by decide) (by decide)
